import Mathlib

/-!
Shallow embedding of the agentic-ai-system core (planner key inference,
executor retry loop, run orchestrator finalization, tool-input repair loop,
JSON recovery) translated from the Python sources under `app/`.

Modelling conventions:
* Python values flowing through tool outputs / context fields are embedded as
  `PyVal` (`None`, bools, ints, strings, lists, string-keyed dicts).
* Wall-clock data (`timestamp`, `created_at`, `completed_at`, `duration_ms`)
  is real time and is modelled only as a boolean "was set" flag or dropped;
  no claim depends on clock values.
* External collaborators (the LLM, concrete tool implementations, `json.loads`)
  are parameters (oracles) of the embedded functions; the repository's control
  flow around them is translated verbatim.
* Python string methods (`lower`, `isalnum`, `strip`) are modelled on the
  ASCII range, which covers every string the repository itself constructs.
-/

set_option maxRecDepth 10000

namespace AgenticAI

/-- Embedded Python value (`Any` in the sources). `PyVal.none` is Python `None`. -/
inductive PyVal where
  | none
  | bool (b : Bool)
  | int (n : Int)
  | str (s : String)
  | list (xs : List PyVal)
  | dict (xs : List (String × PyVal))

/-- Python truthiness (`bool(v)`) for embedded values. -/
def pyTruthy : PyVal → Bool
  | PyVal.none => false
  | PyVal.bool b => b
  | PyVal.int n => n != 0
  | PyVal.str s => s != ""
  | PyVal.list xs => !xs.isEmpty
  | PyVal.dict xs => !xs.isEmpty

/-- Python dict lookup `d.get(k)` on an insertion-ordered assoc list. -/
def dictGet (xs : List (String × PyVal)) (k : String) : Option PyVal :=
  (xs.find? (fun p => p.1 == k)).map (fun p => p.2)

/-- Python dict assignment `d[k] = v`: replace in place or append. -/
def dictSet (xs : List (String × PyVal)) (k : String) (v : PyVal) : List (String × PyVal) :=
  if xs.any (fun p => p.1 == k) then
    xs.map (fun p => if p.1 == k then (k, v) else p)
  else
    xs ++ [(k, v)]

/-- Python `a or b` for an optional string `a` (None and `""` are falsy). -/
def pyStrOr (a : Option String) (b : String) : String :=
  match a with
  | Option.none => b
  | some s => if s = "" then b else s

/-- Truthiness of an `Optional[str]` (None and `""` are falsy). -/
def optStrTruthy : Option String → Bool
  | Option.none => false
  | some s => s != ""

/-- ASCII model of `ch.lower()` (`app/agents/planner.py`, `executor.py`). -/
def pyLowerChar (c : Char) : Char :=
  if 65 ≤ c.toNat ∧ c.toNat ≤ 90 then Char.ofNat (c.toNat + 32) else c

/-- ASCII model of `str.lower()`. -/
def pyLowerStr (s : String) : String :=
  String.mk (s.data.map pyLowerChar)

/-- Tool input mapping (`Dict[str, Any]`). -/
abbrev InputData := List (String × PyVal)

/-- `app/schemas/request_response.py` `ExecutionStep` (a planned step). -/
structure PlanStep where
  step_number : Nat
  description : String
  tool_name : String
  input_data : InputData := []
  reasoning : Option String := Option.none

/-- `app/memory/schemas.py` `ExecutionStep` (an executed-step record;
`timestamp` dropped, see module comment). -/
structure MemStep where
  step_number : Nat
  description : String
  tool_name : String
  input_data : InputData
  output : PyVal
  success : Bool
  error : Option String

/-- `app/memory/schemas.py` `ExecutionContext`. `completed_at` is modelled as
a "was set" flag; `final_result : Optional[Any] = None` is a `PyVal` whose
`PyVal.none` value is indistinguishable from "unset", exactly as in Python. -/
structure ExecutionContext where
  execution_id : String
  goal : String
  user_context : InputData := []
  intent : Option String := Option.none
  executed_steps : List MemStep := []
  intermediate_outputs : List (String × PyVal) := []
  final_result : PyVal := PyVal.none
  has_summary : Bool := false
  tools_used : List String := []
  tool_failures : Nat := 0
  reasoning_steps : Nat := 0
  status : String := "running"
  completed_at_set : Bool := false
  error : Option String := Option.none

/-- `ExecutionContext.add_step`. -/
def ExecutionContext.add_step (ctx : ExecutionContext) (s : MemStep) : ExecutionContext :=
  { ctx with executed_steps := ctx.executed_steps ++ [s] }

/-- `ExecutionContext.set_output` (`if key:` — None and `""` fall through to
the `step_{n}` branch). -/
def ExecutionContext.set_output (ctx : ExecutionContext) (step_number : Nat)
    (output : PyVal) (key : Option String) : ExecutionContext :=
  match key with
  | some k =>
    if k ≠ "" then
      { ctx with intermediate_outputs := dictSet ctx.intermediate_outputs k output }
    else
      { ctx with intermediate_outputs :=
          dictSet ctx.intermediate_outputs ("step_" ++ toString step_number) output }
  | Option.none =>
    { ctx with intermediate_outputs :=
        dictSet ctx.intermediate_outputs ("step_" ++ toString step_number) output }

/-- `ExecutionContext.complete`. -/
def ExecutionContext.complete (ctx : ExecutionContext) (final_result : PyVal) : ExecutionContext :=
  { ctx with status := "completed", final_result := final_result, completed_at_set := true }

/-- `ExecutionContext.fail`. -/
def ExecutionContext.fail (ctx : ExecutionContext) (error : String) : ExecutionContext :=
  { ctx with status := "failed", error := some error, completed_at_set := true }

/-- `app/tools/base.py` `ToolOutput`. -/
structure ToolOutput where
  success : Bool
  result : PyVal
  error : Option String := Option.none

/-- Outcome of one `tool.execute(**input)` call: a returned `ToolOutput` or a
raised exception (carrying `str(e)`). -/
inductive ExecOutcome where
  | raised (msg : String)
  | returns (r : ToolOutput)

/-- A registered tool at the interface the Executor and Validator consume:
`input_schema.model_validate` (None = passes, `some msg` = `ValidationError`
text), `required_fields`, and the `execute` behaviour as an oracle indexed by
the per-step attempt number (the environment may answer differently on
retries; the Executor always passes the same input). -/
structure Tool where
  required_fields : List String := []
  schema_error : InputData → Option String
  exec : InputData → Nat → ExecOutcome

/-- The tool registry (`tool_registry.get`). -/
abbrev Registry := String → Option Tool

/-- Exit of the per-step `while not success and retry_count < max_retries`
loop in `ExecutorAgent.execute`. `attempts` is a ghost counter of loop
iterations (tool-call attempts). `earlyReturn` is the `ValidationError`
branch that returns from `execute` at once. -/
inductive LoopExit where
  | success (ctx : ExecutionContext) (attempts : Nat)
  | exhausted (ctx : ExecutionContext) (lastError : Option String) (attempts : Nat)
  | earlyReturn (ctx : ExecutionContext)

/-- The executed-step record built at `executor.py:69-77`. -/
def mkMemStep (step : PlanStep) (tool_name : String) (r : ToolOutput) : MemStep :=
  { step_number := step.step_number, description := step.description,
    tool_name := tool_name, input_data := step.input_data,
    output := r.result, success := r.success, error := r.error }

/-- One step's retry loop (`executor.py:47-98`). `fuel` is
`max_retries - retry_count`; `att` counts attempts made so far. A missing
tool raises `ValueError`, which the generic `except` turns into a retry. -/
def stepLoop (reg : Registry) (step : PlanStep) :
    Nat → ExecutionContext → Option String → Nat → LoopExit
  | 0, ctx, lastErr, att => LoopExit.exhausted ctx lastErr att
  | fuel + 1, ctx, _lastErr, att =>
    let tool_name := pyLowerStr step.tool_name
    match reg tool_name with
    | Option.none =>
      stepLoop reg step fuel ctx
        (some ("Tool \x27" ++ step.tool_name ++ "\x27 not found in registry")) (att + 1)
    | some tool =>
      match tool.schema_error step.input_data with
      | some exc =>
        LoopExit.earlyReturn
          (ctx.fail ("Invalid tool input for \x27" ++ tool_name ++ "\x27: " ++ exc))
      | Option.none =>
        match tool.exec step.input_data att with
        | ExecOutcome.raised msg =>
          stepLoop reg step fuel ctx (some msg) (att + 1)
        | ExecOutcome.returns r =>
          let ctx1 := (ctx.add_step (mkMemStep step tool_name r)).set_output
            step.step_number r.result (some tool_name)
          if r.success then
            LoopExit.success ctx1 (att + 1)
          else
            stepLoop reg step fuel ctx1
              (some (pyStrOr r.error ("Tool returned no error details"))) (att + 1)

/-- The run-failure message at `executor.py:102`. -/
def stepFailMsg (step_number max_retries : Nat) (details : String) : String :=
  "Step " ++ toString step_number ++ " failed after " ++ toString max_retries ++
    " attempts: " ++ details

/-- The `for step in steps` loop of `ExecutorAgent.execute`. `.error ctx` is
an early `return execution_context` (run failed); `.ok ctx` means every step
succeeded and control reaches the final-result extraction. -/
def execFor (reg : Registry) (max_retries : Nat) :
    List PlanStep → ExecutionContext → Except ExecutionContext ExecutionContext
  | [], ctx => Except.ok ctx
  | step :: rest, ctx =>
    match stepLoop reg step max_retries ctx Option.none 0 with
    | LoopExit.success ctx1 _ => execFor reg max_retries rest ctx1
    | LoopExit.earlyReturn ctx1 => Except.error ctx1
    | LoopExit.exhausted ctx1 lastErr _attempts =>
      Except.error (ctx1.fail (stepFailMsg step.step_number max_retries
        (pyStrOr lastErr ("No error details were provided"))))

/-- Result of `ExecutorAgent.execute`: a returned context, or a propagated
exception (the `steps[-1]` IndexError on an empty plan) with the mutations
made so far. -/
inductive ExecResult where
  | normal (ctx : ExecutionContext)
  | raised (msg : String) (ctx : ExecutionContext)

/-- The context carried by either `ExecResult` constructor. -/
def ExecResult.ctx : ExecResult → ExecutionContext
  | ExecResult.normal c => c
  | ExecResult.raised _ c => c

/-- The non-reasoning arm of the final-result extraction
(`executor.py:122-126`): look up `intermediate_outputs["step_{steps[-1].step_number}"]`;
`steps[-1]` raises IndexError on an empty list. -/
def executeElse (steps : List PlanStep) (c : ExecutionContext) : ExecResult :=
  match steps.getLast? with
  | Option.none => ExecResult.raised ("list index out of range") c
  | some lastPlan =>
    ExecResult.normal (c.complete
      ((dictGet c.intermediate_outputs ("step_" ++ toString lastPlan.step_number)).getD
        PyVal.none))

/-- `ExecutorAgent.execute` (`executor.py:23-128`). -/
def execute (reg : Registry) (steps : List PlanStep) (ctx : ExecutionContext)
    (max_retries : Nat) : ExecResult :=
  match execFor reg max_retries steps ctx with
  | Except.error c => ExecResult.normal c
  | Except.ok c =>
    match c.executed_steps.getLast? with
    | some last_step =>
      if last_step.tool_name == "reasoning" && last_step.success then
        let answer_content : PyVal :=
          match last_step.output with
          | PyVal.dict xs => (dictGet xs ("answer")).getD PyVal.none
          | _ => PyVal.none
        let content := if pyTruthy answer_content then answer_content else last_step.output
        ExecResult.normal (c.complete (PyVal.dict
          [("content", content), ("source", PyVal.str ("reasoning-only")),
           ("note", PyVal.str ("No external tools used"))]))
      else
        executeElse steps c
    | Option.none => executeElse steps c

/-! ### Run orchestrator (`app/agents/runner.py`) -/

/-- Summary fields of `_build_execution_summary` (`runner.py:99-122`);
`duration_ms` is wall-clock and dropped. One fold step of its `for` loop. -/
def summaryStep (acc : List String × Nat × Nat) (s : MemStep) : List String × Nat × Nat :=
  ( (if acc.1.contains s.tool_name then acc.1 else acc.1 ++ [s.tool_name]),
    acc.2.1 + (if s.success then 0 else 1),
    acc.2.2 + (if s.tool_name == "reasoning" then 1 else 0) )

/-- `execution_context.execution_summary = self._build_execution_summary(...)`. -/
def applySummary (ctx : ExecutionContext) : ExecutionContext :=
  let a := ctx.executed_steps.foldl summaryStep ([], 0, 0)
  { ctx with
    has_summary := true
    tools_used := a.1
    tool_failures := a.2.1
    reasoning_steps := a.2.2 }

mutual

/-- Rendering model of `json.dumps(v, indent=2)` / `str(v)`: the claims only
depend on these producing *some* string, never on the exact text. -/
def pyDumps : PyVal → String
  | PyVal.none => "null"
  | PyVal.bool true => "true"
  | PyVal.bool false => "false"
  | PyVal.int n => toString n
  | PyVal.str s => "\x22" ++ s ++ "\x22"
  | PyVal.list xs => "[" ++ String.intercalate (", ") (pyDumpsList xs) ++ "]"
  | PyVal.dict xs => "\x7b" ++ String.intercalate (", ") (pyDumpsPairs xs) ++ "\x7d"

/-- Auxiliary for `pyDumps` on list elements. -/
def pyDumpsList : List PyVal → List String
  | [] => []
  | v :: vs => pyDumps v :: pyDumpsList vs

/-- Auxiliary for `pyDumps` on dict entries. -/
def pyDumpsPairs : List (String × PyVal) → List String
  | [] => []
  | (k, v) :: vs => ("\x22" ++ k ++ "\x22: " ++ pyDumps v) :: pyDumpsPairs vs
end

/-- Rendering model of Python `str(v)`. -/
def pyStr : PyVal → String
  | PyVal.str s => s
  | PyVal.none => "None"
  | PyVal.bool true => "True"
  | PyVal.bool false => "False"
  | PyVal.int n => toString n
  | v => pyDumps v

/-- `AgentRunner._extract_content` (`runner.py:171-194`). -/
def extractContent (last_step : Option MemStep) : String :=
  match last_step with
  | Option.none => "No output available."
  | some ls =>
    match ls.output with
    | PyVal.none => "Tool completed but returned no data."
    | PyVal.str s =>
      if s = "" then "Tool completed but returned no data." else s
    | PyVal.dict xs =>
      if (dictGet xs ("answer")).any pyTruthy then
        pyStr ((dictGet xs ("answer")).getD PyVal.none)
      else if (dictGet xs ("message")).any pyTruthy then
        pyStr ((dictGet xs ("message")).getD PyVal.none)
      else
        match dictGet xs ("body") with
        | some body =>
          (match body with
           | PyVal.none => "Tool completed but returned no data."
           | PyVal.str s => if s = "" then "Tool completed but returned no data." else s
           | PyVal.dict ys => pyDumps (PyVal.dict ys)
           | PyVal.list ys => pyDumps (PyVal.list ys)
           | b => pyStr b)
        | Option.none => pyDumps (PyVal.dict xs)
    | out => pyDumps out

/-- `AgentRunner._derive_source` (`runner.py:196-204`). -/
def deriveSource (tools_used : List String) : String :=
  if tools_used = ["reasoning"] then "reasoning-only"
  else if tools_used = ["http"] then "http"
  else if tools_used.contains "http" then "mixed"
  else "mixed"

/-- Substring check (`keyword in goal`) on char lists. -/
def listContainsSub (sub : List Char) : List Char → Bool
  | [] => sub.isEmpty
  | l@(_ :: rest) => sub.isPrefixOf l || listContainsSub sub rest

/-- The deterministic-keyword list of `_derive_confidence`. -/
def deterministicKeywords : List String :=
  ["calculate", "sum", "add", "subtract", "multiply", "divide", "math", "code"]

/-- `AgentRunner._derive_confidence` (`runner.py:206-225`). -/
def deriveConfidence (source goal : String) : String :=
  if source = "tool-failure" then "low"
  else if source = "http" ∨ source = "mixed" then "high"
  else if deterministicKeywords.any
      (fun kw => listContainsSub kw.data (pyLowerStr goal).data) then "high"
  else "medium"

/-- The failure-shaped `final_result` dict built at `runner.py:143-148` and
`runner.py:152-157`. -/
def failureResult (content eid : String) : PyVal :=
  PyVal.dict [("content", PyVal.str content), ("source", PyVal.str ("tool-failure")),
    ("confidence", PyVal.str ("low")), ("execution_id", PyVal.str eid)]

/-- `AgentRunner._resolve_final_output` (`runner.py:124-169`). Sets
`final_result` by direct field assignment (the status is not changed). -/
def resolveFinalOutput (ctx : ExecutionContext) : ExecutionContext :=
  let steps := ctx.executed_steps
  let last_step := steps.getLast?
  let tools_used := if ctx.has_summary then ctx.tools_used else []
  if ctx.status == "failed" || steps.any (fun s => !s.success) then
    let error_msg : Option String :=
      if optStrTruthy ctx.error then ctx.error
      else
        match last_step with
        | some ls => if optStrTruthy ls.error then ls.error else ctx.error
        | Option.none => ctx.error
    let base_message :=
      if optStrTruthy error_msg then
        "Tool execution failed. " ++ error_msg.getD ""
      else
        "Tool execution failed. No additional error details were provided."
    let content :=
      if tools_used.contains "http" then
        "Unable to fetch live data via HTTP tool. " ++ base_message
      else base_message
    { ctx with final_result := failureResult content ctx.execution_id }
  else if steps.isEmpty then
    { ctx with final_result :=
        failureResult ("No steps were executed for this goal.") ctx.execution_id }
  else
    let content := extractContent last_step
    let source := deriveSource tools_used
    let confidence := deriveConfidence source ctx.goal
    { ctx with final_result := PyVal.dict (
        [("content", PyVal.str content), ("source", PyVal.str source),
         ("confidence", PyVal.str confidence),
         ("execution_id", PyVal.str ctx.execution_id)]) }

/-- The context `memory_store.create_execution_context` builds at run start,
with `intent` then set by `classify_intent` (modelled as the `intentLabel`
oracle; `execution_id` is the uuid oracle). -/
def initialContext (goal eid : String) (uc : InputData) (intentLabel : String) :
    ExecutionContext :=
  { execution_id := eid, goal := goal, user_context := uc, intent := some intentLabel }

/-- Ghost trace of one `AgentRunner.run` call: the returned context, the
snapshots passed to `memory_store.save_context`, and how many times
`_resolve_final_output` ran. -/
structure RunTrace where
  ctx : ExecutionContext
  saved : List ExecutionContext
  finalizeCalls : Nat

/-- The `except Exception` path of `AgentRunner.run` (`runner.py:86-97`). -/
def runCatch (c : ExecutionContext) (msg : String) : RunTrace :=
  let c1 := c.fail ("Agent run failed: " ++ msg)
  let c2 := resolveFinalOutput (applySummary c1)
  { ctx := c2, saved := [c2], finalizeCalls := 1 }

/-- `AgentRunner.run` (`runner.py:30-97`). Planning is the external oracle
`planResult` (`Except.error` = the planner raised). -/
def run (reg : Registry) (max_retries : Nat) (goal eid intentLabel : String)
    (uc : InputData) (planResult : Except String (List PlanStep)) : RunTrace :=
  let ctx0 := initialContext goal eid uc intentLabel
  match planResult with
  | Except.error e => runCatch ctx0 e
  | Except.ok steps =>
    match execute reg steps ctx0 max_retries with
    | ExecResult.raised msg c => runCatch c msg
    | ExecResult.normal c =>
      let c2 := resolveFinalOutput (applySummary c)
      { ctx := c2, saved := [c2], finalizeCalls := 1 }

/-! ### Tool-input validator/repairer (`app/agents/validator.py`) -/

/-- Whitespace for the ASCII model of `str.strip()` / JSON whitespace. -/
def isWsChar (c : Char) : Bool :=
  c = ' ' ∨ c = '\t' ∨ c = '\n' ∨ c = '\r'

/-- `ToolInputValidator._has_value` (`validator.py:165-173`);
`bool(value.strip())` holds iff some char is non-whitespace. -/
def pyHasValue : PyVal → Bool
  | PyVal.none => false
  | PyVal.str s => s.data.any (fun c => !isWsChar c)
  | PyVal.list xs => !xs.isEmpty
  | PyVal.dict xs => !xs.isEmpty
  | _ => true

/-- Python `repr` of a string inside an f-string list rendering. -/
def pyReprStr (s : String) : String := "\x27" ++ s ++ "\x27"

/-- Rendering of `f"{xs}"` for a list of strings. -/
def showStrList (xs : List String) : String :=
  "[" ++ String.intercalate (", ") (xs.map pyReprStr) ++ "]"

/-- `ToolInputValidator._collect_errors` (`validator.py:73-89`). -/
def collect_errors (tool : Tool) (input : InputData) : List String :=
  let missing := tool.required_fields.filter
    (fun f => !pyHasValue ((dictGet input f).getD PyVal.none))
  let errs := if missing.isEmpty then []
    else ["missing required fields: " ++ showStrList missing]
  match tool.schema_error input with
  | some exc => errs ++ ["schema validation error: " ++ exc]
  | Option.none => errs

/-- The repair collaborator (`_repair_with_llm`): given the current input,
the error list and the attempt index, returns the repaired dict, or `none`
when the LLM response fails to parse or is not a JSON object. -/
abbrev RepairOracle := InputData → List String → Nat → Option InputData

/-- Result of `validate_and_repair`'s loop: the accepted input or the raised
`ValueError`, with a ghost count of repair-collaborator calls. -/
inductive RepairResult where
  | ok (input : InputData) (repairCalls : Nat)
  | failed (msg : String) (repairCalls : Nat)

/-- The `ValueError` message at `validator.py:69-71`. -/
def repairFailMsg (tool_name : String) (errors : List String) : String :=
  "Unable to repair tool input for \x27" ++ tool_name ++
    "\x27. Validation errors: " ++ showStrList errors

/-- The `for attempt in range(max_attempts + 1)` loop of `validate_and_repair`
(`validator.py:40-71`). `fuel = max_attempts - attempt`; at `fuel = 0` the
`attempt >= max_attempts` guard breaks out to the raise. -/
def repairIter (tool : Tool) (tool_name : String) (repair : RepairOracle)
    (max_attempts : Nat) : Nat → InputData → Nat → RepairResult
  | 0, input, calls =>
    let errors := collect_errors tool input
    if errors.isEmpty then RepairResult.ok input calls
    else RepairResult.failed (repairFailMsg tool_name errors) calls
  | fuel + 1, input, calls =>
    let errors := collect_errors tool input
    if errors.isEmpty then RepairResult.ok input calls
    else
      match repair input errors (max_attempts - (fuel + 1)) with
      | Option.none => RepairResult.failed (repairFailMsg tool_name errors) (calls + 1)
      | some repaired => repairIter tool tool_name repair max_attempts fuel repaired (calls + 1)

/-- `ToolInputValidator.validate_and_repair` (`validator.py:24-71`);
`Except.error` is the tool-not-found `ValueError` raised before the loop. -/
def validate_and_repair (reg : Registry) (step : PlanStep) (repair : RepairOracle)
    (max_attempts : Nat := 2) : Except String RepairResult :=
  match reg (pyLowerStr step.tool_name) with
  | Option.none =>
    Except.error ("Tool \x27" ++ step.tool_name ++ "\x27 not found in registry")
  | some tool =>
    Except.ok (repairIter tool (pyLowerStr step.tool_name) repair max_attempts
      max_attempts step.input_data 0)

/-! ### JSON recovery (`app/llm/groq_client.py:95-111`, `parse_json`) -/

/-- The `'\x7b'` start character (written via its code point to keep braces
out of literals). -/
def lbrace : Char := Char.ofNat 123

/-- The closing-brace character. -/
def rbrace : Char := Char.ofNat 125

/-- Python character-index slice `text[a:b]`. -/
def strSlice (s : String) (a b : Nat) : String :=
  String.mk ((s.data.drop a).take (b - a))

/-- Python `text.find(c)` returning `none` for `-1`. -/
def strFindIdx (s : String) (c : Char) : Option Nat :=
  s.data.findIdx? (fun d => d == c)

/-- The inner `for end_idx in range(len(text), start_idx, -1)` loop: try
`loads(text[start:start+n])`, `loads(text[start:start+n-1])`, … down to the
one-character slice. -/
def trySuffixes {α : Type} (loads : String → Option α) (text : String)
    (start : Nat) : Nat → Option α
  | 0 => Option.none
  | n + 1 =>
    match loads (strSlice text start (start + n + 1)) with
    | some v => some v
    | Option.none => trySuffixes loads text start n

/-- One iteration of the outer `for start_char in ['\x7b', '[']` loop: find
the first occurrence of `c` and try every closing suffix from the end. -/
def tryFromFirst {α : Type} (loads : String → Option α) (text : String)
    (c : Char) : Option α :=
  match strFindIdx text c with
  | some i => trySuffixes loads text i (text.length - i)
  | Option.none => Option.none

/-- The outer loop over start characters. -/
def scanStartChars {α : Type} (loads : String → Option α) (text : String) :
    List Char → Option α
  | [] => Option.none
  | c :: cs =>
    match tryFromFirst loads text c with
    | some v => some v
    | Option.none => scanStartChars loads text cs

/-- `GroqClient.parse_json` (`groq_client.py:95-111`), parameterized by the
`json.loads` oracle; `none` is the raised `ValueError`. -/
def parse_json {α : Type} (loads : String → Option α) (text : String) : Option α :=
  match loads text with
  | some v => some v
  | Option.none => scanStartChars loads text [lbrace, '[']

/-- First index whose char is `'\x7b'` or `'['`. -/
def strFindIdxEither (s : String) : Option Nat :=
  s.data.findIdx? (fun d => d == lbrace || d == '[')

/-- Modelled from the claim text of C8 (not from the source): scan for the
*first* `'\x7b'` or `'['` *occurring in the text* (i.e. the textually earliest
of the two), then try every closing suffix from the end backward. Used to
compare the claimed algorithm with the code's. -/
def parse_json_claimed {α : Type} (loads : String → Option α) (text : String) : Option α :=
  match loads text with
  | some v => some v
  | Option.none =>
    match strFindIdxEither text with
    | some i => trySuffixes loads text i (text.length - i)
    | Option.none => Option.none

/-- The amended recovery description: after a failed direct parse, recovery
runs from the first `'\x7b'` (all closing suffixes); only if that yields
nothing does it run from the first `'['`; it fails if neither yields a parse.
Stated from the amended claim wording, to be proved equal to `parse_json`. -/
def parse_json_amended {α : Type} (loads : String → Option α) (text : String) : Option α :=
  match loads text with
  | some v => some v
  | Option.none =>
    match tryFromFirst loads text lbrace with
    | some v => some v
    | Option.none => tryFromFirst loads text '['

/-! ### A concrete `json.loads` witness (mini JSON parser)

Used only to evaluate `parse_json` on concrete counterexample inputs; it
implements the JSON subset those inputs exercise (null/true/false, Nat
numbers, escape-free strings, arrays, objects). -/

/-- Mini JSON values. -/
inductive J where
  | jnull
  | jbool (b : Bool)
  | jnum (n : Nat)
  | jstr (s : String)
  | jarr (xs : List J)
  | jobj (xs : List (String × J))

/-- Skip JSON whitespace. -/
def skipWs (cs : List Char) : List Char :=
  cs.dropWhile isWsChar

/-- Parse an escape-free JSON string body after the opening quote. -/
def parseStringLit (cs : List Char) : Option (String × List Char) :=
  let body := cs.takeWhile (fun c => c ≠ '\x22')
  let rest := cs.dropWhile (fun c => c ≠ '\x22')
  match rest with
  | '\x22' :: r => some (String.mk body, r)
  | _ => Option.none

/-- Digits to `Nat`. -/
def digitsToNat (ds : List Char) : Nat :=
  ds.foldl (fun n c => n * 10 + (c.toNat - 48)) 0

mutual

/-- Parse one JSON value (fuel-bounded). -/
def parseVal : Nat → List Char → Option (J × List Char)
  | 0, _ => Option.none
  | fuel + 1, cs =>
    match cs with
    | 'n' :: 'u' :: 'l' :: 'l' :: rest => some (J.jnull, rest)
    | 't' :: 'r' :: 'u' :: 'e' :: rest => some (J.jbool true, rest)
    | 'f' :: 'a' :: 'l' :: 's' :: 'e' :: rest => some (J.jbool false, rest)
    | '\x22' :: rest => (parseStringLit rest).map (fun p => (J.jstr p.1, p.2))
    | '[' :: rest =>
      (match skipWs rest with
       | ']' :: r2 => some (J.jarr [], r2)
       | r =>
         match parseElems fuel r with
         | some (xs, r2) => some (J.jarr xs, r2)
         | Option.none => Option.none)
    | c :: rest =>
      if c = lbrace then
        match skipWs rest with
        | d :: r2 =>
          if d = rbrace then some (J.jobj [], r2)
          else
            (match parseMembers fuel (d :: r2) with
             | some (xs, r3) => some (J.jobj xs, r3)
             | Option.none => Option.none)
        | [] => Option.none
      else if c.isDigit then
        some (J.jnum (digitsToNat ((c :: rest).takeWhile Char.isDigit)),
          (c :: rest).dropWhile Char.isDigit)
      else Option.none
    | [] => Option.none

/-- Parse comma-separated array elements up to `]`. -/
def parseElems : Nat → List Char → Option (List J × List Char)
  | 0, _ => Option.none
  | fuel + 1, cs =>
    match parseVal fuel (skipWs cs) with
    | Option.none => Option.none
    | some (v, rest) =>
      match skipWs rest with
      | ',' :: r2 =>
        (match parseElems fuel r2 with
         | some (xs, r3) => some (v :: xs, r3)
         | Option.none => Option.none)
      | d :: r2 => if d = ']' then some ([v], r2) else Option.none
      | [] => Option.none

/-- Parse comma-separated object members up to the closing brace. -/
def parseMembers : Nat → List Char → Option (List (String × J) × List Char)
  | 0, _ => Option.none
  | fuel + 1, cs =>
    match skipWs cs with
    | '\x22' :: r =>
      (match parseStringLit r with
       | Option.none => Option.none
       | some (k, r2) =>
         match skipWs r2 with
         | ':' :: r3 =>
           (match parseVal fuel (skipWs r3) with
            | Option.none => Option.none
            | some (v, r4) =>
              match skipWs r4 with
              | ',' :: r5 =>
                (match parseMembers fuel r5 with
                 | some (xs, r6) => some ((k, v) :: xs, r6)
                 | Option.none => Option.none)
              | d :: r5 => if d = rbrace then some ([(k, v)], r5) else Option.none
              | [] => Option.none)
         | _ => Option.none)
    | _ => Option.none

end

/-- The `json.loads` witness: parse a full value and require only trailing
whitespace, as `json.loads` does. -/
def jloads (s : String) : Option J :=
  match parseVal (s.length + 1) (skipWs s.data) with
  | some (v, rest) => if (skipWs rest).isEmpty then some v else Option.none
  | Option.none => Option.none

/-! ### Planner memory-key inference (`app/agents/planner.py:275-279`) -/

/-- ASCII model of `char.isalnum()`. -/
def pyIsAlnum (c : Char) : Bool :=
  (48 ≤ c.toNat ∧ c.toNat ≤ 57) ∨ (65 ≤ c.toNat ∧ c.toNat ≤ 90) ∨
    (97 ≤ c.toNat ∧ c.toNat ≤ 122)

/-- ASCII model of `char.isupper()`. -/
def pyIsUpper (c : Char) : Bool :=
  65 ≤ c.toNat ∧ c.toNat ≤ 90

/-- `char.lower() if char.isalnum() else "_"`. -/
def normChar (c : Char) : Char :=
  if pyIsAlnum c then pyLowerChar c else '_'

/-- Python `s.split("_")` on char lists (keeps empty pieces). -/
def splitUnderscore : List Char → List (List Char)
  | [] => [[]]
  | c :: cs =>
    let r := splitUnderscore cs
    if c = '_' then [] :: r
    else
      match r with
      | [] => [[c]]
      | w :: ws => (c :: w) :: ws

/-- Python `"_".join(ws)` on char lists. -/
def joinUnderscore : List (List Char) → List Char
  | [] => []
  | [w] => w
  | w :: ws => w ++ '_' :: joinUnderscore ws

/-- `PlannerAgent._infer_memory_key` (`planner.py:275-279`). -/
def infer_memory_key (goal : String) : String :=
  let cleaned := goal.data.map normChar
  let joined := joinUnderscore ((splitUnderscore cleaned).filter (fun w => w ≠ []))
  let truncated := joined.take 40
  if truncated = [] then "result" else String.mk truncated

/-! ### Helper observers and derived state descriptions used in statements -/

/-- The context carried by a `LoopExit`. -/
def LoopExit.ctx : LoopExit → ExecutionContext
  | LoopExit.success c _ => c
  | LoopExit.exhausted c _ _ => c
  | LoopExit.earlyReturn c => c

/-- The context carried by either `execFor` outcome. -/
def exceptCtx : Except ExecutionContext ExecutionContext → ExecutionContext
  | Except.ok c => c
  | Except.error c => c

/-- The tool-lookup `ValueError` text (`executor.py:55`, `validator.py:35`). -/
def toolNotFoundMsg (tool_name : String) : String :=
  "Tool \x27" ++ tool_name ++ "\x27 not found in registry"

/-- Whether an attempt outcome counts as a failure for the retry loop
(a raised fault, or a returned result with `success=False`). -/
def isFailOutcome : ExecOutcome → Bool
  | ExecOutcome.raised _ => true
  | ExecOutcome.returns r => !r.success

/-- The `last_error` recorded for a failed attempt (`executor.py:91,96`). -/
def lastErrStr : ExecOutcome → String
  | ExecOutcome.raised m => m
  | ExecOutcome.returns r => pyStrOr r.error ("Tool returned no error details")

/-- Context mutation performed by one failing attempt: a raised fault leaves
the context untouched; a returned failure appends its record and stores its
output. -/
def afterFailAttempt (tool : Tool) (step : PlanStep) (ctx : ExecutionContext)
    (att : Nat) : ExecutionContext :=
  match tool.exec step.input_data att with
  | ExecOutcome.raised _ => ctx
  | ExecOutcome.returns r =>
    (ctx.add_step (mkMemStep step (pyLowerStr step.tool_name) r)).set_output
      step.step_number r.result (some (pyLowerStr step.tool_name))

/-- Context after `fuel` consecutive failing attempts starting at attempt
index `att`. -/
def allFailCtx (tool : Tool) (step : PlanStep) : ExecutionContext → Nat → Nat → ExecutionContext
  | ctx, _, 0 => ctx
  | ctx, att, fuel + 1 => allFailCtx tool step (afterFailAttempt tool step ctx att) (att + 1) fuel

/-- `final_result` is "set" in the Python sense (not `None`). -/
def finalResultSet (ctx : ExecutionContext) : Bool :=
  match ctx.final_result with
  | PyVal.none => false
  | _ => true

/-- The C5 spec invariant as a decidable predicate: if `final_result` is set
then `status != running`. -/
def finalImpliesDone (ctx : ExecutionContext) : Prop :=
  finalResultSet ctx = true → ctx.status ≠ "running"

/-- An `execute` outcome that finished `completed` although some executed-step
record is unsuccessful (a retried-then-recovered attempt). -/
def completedWithFailedAttempt : ExecResult → Bool
  | ExecResult.normal c =>
    c.status == "completed" && c.executed_steps.any (fun s => !s.success)
  | ExecResult.raised _ _ => false

/-- No two adjacent underscores. -/
def noDoubleUnderscore : List Char → Bool
  | c1 :: c2 :: rest => !(c1 == '_' && c2 == '_') && noDoubleUnderscore (c2 :: rest)
  | _ => true

/-! ### Concrete fixtures used by counterexamples and witnesses -/

/-- A tool whose every call returns `success=False` with error `"boom"`. -/
def tFail : Tool :=
  { schema_error := fun _ => Option.none,
    exec := fun _ _ => ExecOutcome.returns
      { success := false, result := PyVal.none, error := some "boom" } }

/-- Registry exposing `tFail` as `"t"`. -/
def regFail : Registry := fun n => if n = "t" then some tFail else Option.none

/-- A one-step plan calling tool `"t"`. -/
def stepOne : PlanStep := { step_number := 1, description := "d", tool_name := "t" }

/-- A fresh run context fixture. -/
def ctxFix : ExecutionContext := initialContext "g" "id" [] "mixed"

/-- The empty registry. -/
def regNone : Registry := fun _ => Option.none

/-- A step naming an unregistered tool. -/
def stepMissing : PlanStep := { step_number := 1, description := "d", tool_name := "missing" }

/-- A tool that always succeeds returning the string `"payload"`. -/
def tEcho : Tool :=
  { schema_error := fun _ => Option.none,
    exec := fun _ _ => ExecOutcome.returns { success := true, result := PyVal.str "payload" } }

/-- Registry exposing `tEcho` as `"echo"`. -/
def regEcho : Registry := fun n => if n = "echo" then some tEcho else Option.none

/-- A one-step plan calling `"echo"`. -/
def stepEcho : PlanStep := { step_number := 1, description := "d", tool_name := "echo" }

/-- A tool failing on attempt 0 and succeeding afterwards. -/
def tFlaky : Tool :=
  { schema_error := fun _ => Option.none,
    exec := fun _ att =>
      if att = 0 then
        ExecOutcome.returns { success := false, result := PyVal.none, error := some "boom" }
      else
        ExecOutcome.returns { success := true, result := PyVal.str "ok" } }

/-- Registry exposing `tFlaky` as `"t"`. -/
def regFlaky : Registry := fun n => if n = "t" then some tFlaky else Option.none

/-- A tool whose schema rejects every input. -/
def tBadSchema : Tool :=
  { schema_error := fun _ => some "always bad",
    exec := fun _ _ => ExecOutcome.raised "unreachable" }

/-- A repair collaborator whose answer always parses (to the empty dict). -/
def repairEmptyDict : RepairOracle := fun _ _ _ => some []

/-- A repair collaborator whose answer never parses as a JSON object. -/
def repairUnparsable : RepairOracle := fun _ _ _ => Option.none

/-- Registry exposing `tBadSchema` as `"t"`. -/
def regBadSchema : Registry := fun n => if n = "t" then some tBadSchema else Option.none

/-- A concrete executed-step record fixture. -/
def memStepFix : MemStep :=
  { step_number := 1, description := "d", tool_name := "t", input_data := [],
    output := PyVal.none, success := true, error := Option.none }

/-! ## Helper lemmas -/

theorem toNat_ofNat_valid (n : Nat) (h : n < 55296) : (Char.ofNat n).toNat = n := by
  have hv : Char.isValidCharNat n := Or.inl h
  rw [Char.ofNat, dif_pos hv]
  rfl

theorem toolNotFoundMsg_ne_empty (tn : String) : toolNotFoundMsg tn ≠ "" := by
  intro h
  have h2 : ("Tool \x27".data ++ tn.data) ++ "\x27 not found in registry".data = [] :=
    congrArg String.data h
  rw [List.append_eq_nil] at h2
  rw [List.append_eq_nil] at h2
  exact absurd h2.1.1 (by decide)

theorem pyStrOr_of_ne_empty (s : String) (d : String) (h : s ≠ "") :
    pyStrOr (some s) d = s := by
  simp [pyStrOr, h]

@[simp] theorem add_step_executed (ctx : ExecutionContext) (s : MemStep) :
    (ctx.add_step s).executed_steps = ctx.executed_steps ++ [s] := rfl

@[simp] theorem add_step_status (ctx : ExecutionContext) (s : MemStep) :
    (ctx.add_step s).status = ctx.status := rfl

@[simp] theorem add_step_error (ctx : ExecutionContext) (s : MemStep) :
    (ctx.add_step s).error = ctx.error := rfl

@[simp] theorem add_step_final (ctx : ExecutionContext) (s : MemStep) :
    (ctx.add_step s).final_result = ctx.final_result := rfl

@[simp] theorem set_output_executed (ctx : ExecutionContext) (n : Nat) (out : PyVal)
    (k : Option String) : (ctx.set_output n out k).executed_steps = ctx.executed_steps := by
  cases k with
  | none => rfl
  | some s =>
    simp only [ExecutionContext.set_output]
    split <;> rfl

@[simp] theorem set_output_status (ctx : ExecutionContext) (n : Nat) (out : PyVal)
    (k : Option String) : (ctx.set_output n out k).status = ctx.status := by
  cases k with
  | none => rfl
  | some s =>
    simp only [ExecutionContext.set_output]
    split <;> rfl

@[simp] theorem set_output_error (ctx : ExecutionContext) (n : Nat) (out : PyVal)
    (k : Option String) : (ctx.set_output n out k).error = ctx.error := by
  cases k with
  | none => rfl
  | some s =>
    simp only [ExecutionContext.set_output]
    split <;> rfl

@[simp] theorem set_output_final (ctx : ExecutionContext) (n : Nat) (out : PyVal)
    (k : Option String) : (ctx.set_output n out k).final_result = ctx.final_result := by
  cases k with
  | none => rfl
  | some s =>
    simp only [ExecutionContext.set_output]
    split <;> rfl

@[simp] theorem fail_status (ctx : ExecutionContext) (e : String) :
    (ctx.fail e).status = "failed" := rfl

@[simp] theorem fail_error (ctx : ExecutionContext) (e : String) :
    (ctx.fail e).error = some e := rfl

@[simp] theorem fail_executed (ctx : ExecutionContext) (e : String) :
    (ctx.fail e).executed_steps = ctx.executed_steps := rfl

@[simp] theorem fail_final (ctx : ExecutionContext) (e : String) :
    (ctx.fail e).final_result = ctx.final_result := rfl

@[simp] theorem complete_status (ctx : ExecutionContext) (v : PyVal) :
    (ctx.complete v).status = "completed" := rfl

@[simp] theorem complete_final (ctx : ExecutionContext) (v : PyVal) :
    (ctx.complete v).final_result = v := rfl

@[simp] theorem complete_executed (ctx : ExecutionContext) (v : PyVal) :
    (ctx.complete v).executed_steps = ctx.executed_steps := rfl

@[simp] theorem complete_error (ctx : ExecutionContext) (v : PyVal) :
    (ctx.complete v).error = ctx.error := rfl

/-- With the tool missing from the registry, every loop iteration raises and
retries, so the loop burns all its fuel and exits exhausted with the
lookup-error text, the context untouched. -/
theorem stepLoop_notFound (reg : Registry) (step : PlanStep)
    (h : reg (pyLowerStr step.tool_name) = Option.none) :
    ∀ fuel ctx le att, stepLoop reg step (fuel + 1) ctx le att =
      LoopExit.exhausted ctx (some (toolNotFoundMsg step.tool_name)) (att + fuel + 1) := by
  intro fuel
  induction fuel with
  | zero =>
    intro ctx le att
    simp [stepLoop, h, toolNotFoundMsg]
  | succ n ih =>
    intro ctx le att
    show stepLoop reg step (n + 1 + 1) ctx le att = _
    rw [stepLoop]
    simp only [h]
    rw [ih]
    congr 1
    omega

/-- With the tool missing and a positive retry budget, `execFor` fails the
run at that step with the exhausted-retries message wrapping the lookup
error, without touching later steps. -/
theorem execFor_notFound (reg : Registry) (step : PlanStep) (rest : List PlanStep)
    (ctx : ExecutionContext) (mr : Nat)
    (h : reg (pyLowerStr step.tool_name) = Option.none) (hmr : 0 < mr) :
    execFor reg mr (step :: rest) ctx =
      Except.error (ctx.fail (stepFailMsg step.step_number mr
        (toolNotFoundMsg step.tool_name))) := by
  obtain ⟨f, rfl⟩ : ∃ f, mr = f + 1 := ⟨mr - 1, by omega⟩
  rw [execFor, stepLoop_notFound reg step h f ctx Option.none 0]
  simp [pyStrOr_of_ne_empty _ _ (toolNotFoundMsg_ne_empty step.tool_name)]

/-- C1, counterexample: with `max_retries = 3` and the tool `"missing"`
absent, the per-step loop performs **3** lookup attempts (not 1: the
`ValueError` is caught by the generic `except` and consumes the retry
budget), and the run then fails with a message that says "after 3 attempts",
contradicting "the tool lookup is not retried and consumes no retry
attempts". -/
theorem c1_tool_lookup_retried_counterexample :
    stepLoop regNone stepMissing 3 ctxFix Option.none 0 =
      LoopExit.exhausted ctxFix (some (toolNotFoundMsg "missing")) 3 ∧
    (3 : Nat) ≠ 1 ∧
    (execute regNone [stepMissing, stepOne] ctxFix 3).ctx.error =
      some (stepFailMsg 1 3 (toolNotFoundMsg "missing")) :=
  ⟨rfl, by decide, rfl⟩

/-- C1, amended: when a step's lower-cased tool name is absent from the
registry, the raised `ValueError` is caught by the per-step retry handler, so
the lookup is retried and consumes the full retry budget (`max_retries`
attempts, the context otherwise untouched); the run then transitions to
`failed` with the descriptive message `"Step N failed after R attempts:
Tool 'X' not found in registry"` and no later step of the plan is processed
(the result does not depend on `rest`). -/
theorem c1_tool_not_found_fails_run (reg : Registry) (step : PlanStep)
    (rest : List PlanStep) (ctx : ExecutionContext) (mr : Nat)
    (h : reg (pyLowerStr step.tool_name) = Option.none) (hmr : 0 < mr) :
    stepLoop reg step mr ctx Option.none 0 =
      LoopExit.exhausted ctx (some (toolNotFoundMsg step.tool_name)) mr ∧
    execute reg (step :: rest) ctx mr =
      ExecResult.normal (ctx.fail (stepFailMsg step.step_number mr
        (toolNotFoundMsg step.tool_name))) := by
  constructor
  · obtain ⟨f, rfl⟩ : ∃ f, mr = f + 1 := ⟨mr - 1, by omega⟩
    rw [stepLoop_notFound reg step h f ctx Option.none 0]
    congr 1
    omega
  · rw [execute, execFor_notFound reg step rest ctx mr h hmr]

/-- C1 witness: the amended theorem applied at the concrete missing-tool
fixture. -/
theorem c1_tool_not_found_fails_run_witness :
    stepLoop regNone stepMissing 3 ctxFix Option.none 0 =
      LoopExit.exhausted ctxFix (some (toolNotFoundMsg "missing")) 3 ∧
    execute regNone [stepMissing] ctxFix 3 =
      ExecResult.normal (ctxFix.fail (stepFailMsg 1 3 (toolNotFoundMsg "missing"))) :=
  c1_tool_not_found_fails_run regNone stepMissing [] ctxFix 3 rfl (by decide)

/-- With the tool present, its schema check passing, and every attempt
failing, the retry loop burns all its fuel: it performs exactly `fuel + 1`
attempts, records each returned failure, and exits exhausted carrying the
last attempt's error text. -/
theorem stepLoop_allFail (reg : Registry) (step : PlanStep) (tool : Tool)
    (hreg : reg (pyLowerStr step.tool_name) = some tool)
    (hval : tool.schema_error step.input_data = Option.none)
    (hfail : ∀ k, isFailOutcome (tool.exec step.input_data k) = true) :
    ∀ fuel att ctx le, stepLoop reg step (fuel + 1) ctx le att =
      LoopExit.exhausted (allFailCtx tool step ctx att (fuel + 1))
        (some (lastErrStr (tool.exec step.input_data (att + fuel)))) (att + fuel + 1) := by
  intro fuel
  induction fuel with
  | zero =>
    intro att ctx le
    rw [stepLoop]
    simp only [hreg, hval]
    cases hx : tool.exec step.input_data att with
    | raised m =>
      simp [stepLoop, allFailCtx, afterFailAttempt, hx, lastErrStr]
    | returns r =>
      have hr : r.success = false := by
        have h2 := hfail att
        rw [hx] at h2
        simpa [isFailOutcome] using h2
      simp [hr, stepLoop, allFailCtx, afterFailAttempt, hx, lastErrStr]
  | succ n ih =>
    intro att ctx le
    rw [stepLoop]
    simp only [hreg, hval]
    cases hx : tool.exec step.input_data att with
    | raised m =>
      simp only []
      rw [ih (att + 1) ctx (some m)]
      rw [show allFailCtx tool step ctx att (n + 1 + 1) =
        allFailCtx tool step (afterFailAttempt tool step ctx att) (att + 1) (n + 1) from rfl]
      rw [show afterFailAttempt tool step ctx att = ctx from by
        simp [afterFailAttempt, hx]]
      rw [show att + 1 + n = att + (n + 1) from by omega]
    | returns r =>
      have hr : r.success = false := by
        have h2 := hfail att
        rw [hx] at h2
        simpa [isFailOutcome] using h2
      simp only []
      simp only [hr]
      rw [if_neg (by simp)]
      rw [ih (att + 1) _ _]
      rw [show allFailCtx tool step ctx att (n + 1 + 1) =
        allFailCtx tool step (afterFailAttempt tool step ctx att) (att + 1) (n + 1) from rfl]
      rw [show afterFailAttempt tool step ctx att =
        (ctx.add_step (mkMemStep step (pyLowerStr step.tool_name) r)).set_output
          step.step_number r.result (some (pyLowerStr step.tool_name)) from by
        simp [afterFailAttempt, hx]]
      rw [show att + 1 + n = att + (n + 1) from by omega]

/-- C6: for a step whose tool exists and validates but whose execution
reports failure on every attempt (`success=False` or a raised fault), the
Executor performs exactly `max_retries` attempts — always with
`step.input_data`, by construction of the loop — then fails the run with the
message `"Step N failed after R attempts: <last error>"`, which names the
step number and contains the attempt count; later steps are not processed. -/
theorem c6_retry_ceiling_exact (reg : Registry) (step : PlanStep)
    (rest : List PlanStep) (ctx : ExecutionContext) (mr : Nat) (tool : Tool)
    (hreg : reg (pyLowerStr step.tool_name) = some tool)
    (hval : tool.schema_error step.input_data = Option.none)
    (hfail : ∀ k, isFailOutcome (tool.exec step.input_data k) = true)
    (hmr : 0 < mr) :
    stepLoop reg step mr ctx Option.none 0 =
      LoopExit.exhausted (allFailCtx tool step ctx 0 mr)
        (some (lastErrStr (tool.exec step.input_data (mr - 1)))) mr ∧
    execute reg (step :: rest) ctx mr =
      ExecResult.normal ((allFailCtx tool step ctx 0 mr).fail
        (stepFailMsg step.step_number mr
          (pyStrOr (some (lastErrStr (tool.exec step.input_data (mr - 1))))
            ("No error details were provided")))) := by
  obtain ⟨f, rfl⟩ : ∃ f, mr = f + 1 := ⟨mr - 1, by omega⟩
  have h1 := stepLoop_allFail reg step tool hreg hval hfail f 0 ctx Option.none
  rw [show (0 : Nat) + f = f from by omega] at h1
  rw [show f + 1 - 1 = f from by omega]
  refine ⟨by rw [h1], ?_⟩
  rw [execute, execFor, h1]

/-- C6 witness: the tool `"t"` always returns `success=False` with error
`"boom"`; with `max_retries = 3` the loop exits exhausted after exactly 3
attempts and the run fails with "Step 1 failed after 3 attempts: boom". -/
theorem c6_retry_ceiling_exact_witness :
    stepLoop regFail stepOne 3 ctxFix Option.none 0 =
      LoopExit.exhausted (allFailCtx tFail stepOne ctxFix 0 3)
        (some (lastErrStr (tFail.exec stepOne.input_data 2))) 3 ∧
    execute regFail [stepOne] ctxFix 3 =
      ExecResult.normal ((allFailCtx tFail stepOne ctxFix 0 3).fail
        (stepFailMsg stepOne.step_number 3
          (pyStrOr (some (lastErrStr (tFail.exec stepOne.input_data 2)))
            ("No error details were provided")))) :=
  c6_retry_ceiling_exact regFail stepOne [] ctxFix 3 tFail rfl rfl
    (fun _ => rfl) (by decide)

/-- Each loop iteration appends at most one executed-step record, so the
loop grows `executed_steps` by at most its fuel. -/
theorem stepLoop_len (reg : Registry) (step : PlanStep) :
    ∀ fuel ctx le att, ((stepLoop reg step fuel ctx le att).ctx).executed_steps.length ≤
      ctx.executed_steps.length + fuel := by
  intro fuel
  induction fuel with
  | zero =>
    intro ctx le att
    simp [stepLoop, LoopExit.ctx]
  | succ n ih =>
    intro ctx le att
    rw [stepLoop]
    cases hr : reg (pyLowerStr step.tool_name) with
    | none =>
      simp only []
      exact le_trans (ih ctx _ _) (by omega)
    | some tool =>
      simp only []
      cases hv : tool.schema_error step.input_data with
      | some exc => simp [LoopExit.ctx]
      | none =>
        simp only []
        cases hx : tool.exec step.input_data att with
        | raised m =>
          simp only []
          exact le_trans (ih ctx _ _) (by omega)
        | returns r =>
          simp only []
          by_cases hs : r.success = true
          · simp only [hs, if_pos rfl, LoopExit.ctx]
            simp
          · rw [if_neg (by simp [hs])]
            refine le_trans (ih _ _ _) ?_
            simp
            omega

/-- The `for` loop grows `executed_steps` by at most `max_retries` per step. -/
theorem execFor_len (reg : Registry) (mr : Nat) :
    ∀ steps ctx, (exceptCtx (execFor reg mr steps ctx)).executed_steps.length ≤
      ctx.executed_steps.length + mr * steps.length := by
  intro steps
  induction steps with
  | nil => intro ctx; simp [execFor, exceptCtx]
  | cons step rest ih =>
    intro ctx
    rw [execFor]
    cases hl : stepLoop reg step mr ctx Option.none 0 with
    | success c1 a =>
      simp only []
      have h1 : c1.executed_steps.length ≤ ctx.executed_steps.length + mr := by
        have := stepLoop_len reg step mr ctx Option.none 0
        rw [hl] at this
        exact this
      refine le_trans (ih c1) ?_
      have : mr * (rest.length + 1) = mr * rest.length + mr := by ring
      simp [List.length_cons]
      omega
    | exhausted c1 le a =>
      simp only [exceptCtx]
      have h1 : c1.executed_steps.length ≤ ctx.executed_steps.length + mr := by
        have := stepLoop_len reg step mr ctx Option.none 0
        rw [hl] at this
        exact this
      simp [List.length_cons]
      calc c1.executed_steps.length ≤ ctx.executed_steps.length + mr := h1
        _ ≤ ctx.executed_steps.length + mr * (rest.length + 1) := by
            have : mr ≤ mr * (rest.length + 1) := Nat.le_mul_of_pos_right mr (by omega)
            omega
    | earlyReturn c1 =>
      simp only [exceptCtx]
      have h1 : c1.executed_steps.length ≤ ctx.executed_steps.length + mr := by
        have := stepLoop_len reg step mr ctx Option.none 0
        rw [hl] at this
        exact this
      simp [List.length_cons]
      calc c1.executed_steps.length ≤ ctx.executed_steps.length + mr := h1
        _ ≤ ctx.executed_steps.length + mr * (rest.length + 1) := by
            have : mr ≤ mr * (rest.length + 1) := Nat.le_mul_of_pos_right mr (by omega)
            omega

/-- The final-result extraction appends no records. -/
theorem execute_len (reg : Registry) (steps : List PlanStep) (ctx : ExecutionContext)
    (mr : Nat) : (execute reg steps ctx mr).ctx.executed_steps.length ≤
      ctx.executed_steps.length + mr * steps.length := by
  rw [execute]
  cases hf : execFor reg mr steps ctx with
  | error c =>
    have := execFor_len reg mr steps ctx
    rw [hf] at this
    simpa [ExecResult.ctx] using this
  | ok c =>
    have hb : c.executed_steps.length ≤ ctx.executed_steps.length + mr * steps.length := by
      have := execFor_len reg mr steps ctx
      rw [hf] at this
      exact this
    simp only []
    cases hlast : c.executed_steps.getLast? with
    | none =>
      simp only [executeElse]
      cases steps.getLast? <;> simpa [ExecResult.ctx]
    | some ls =>
      simp only []
      by_cases hc : (ls.tool_name == "reasoning" && ls.success) = true
      · rw [if_pos hc]
        simpa [ExecResult.ctx]
      · rw [if_neg hc]
        simp only [executeElse]
        cases steps.getLast? <;> simpa [ExecResult.ctx]

/-- C3, counterexample: one step, `max_retries = 3`, a tool that always
returns `success=False`: `add_step` runs once per attempt (`executor.py:78`
is inside the retry loop), so after `execute` the context holds **3**
executed-step records for a 1-step plan, refuting
`len(executed_steps) ≤ len(steps)`. -/
theorem c3_executed_steps_exceed_plan_counterexample :
    (execute regFail [stepOne] ctxFix 3).ctx.executed_steps.length = 3 ∧
    List.length [stepOne] = 1 ∧ ¬ (3 : Nat) ≤ 1 :=
  ⟨rfl, rfl, by decide⟩

/-- C3, amended: an executed-step record is appended once per *attempt that
returns a result*, never elsewhere, so at every point (after each step's
retry loop, and after `execute` returns or raises) `executed_steps` has grown
by at most `max_retries` records per processed step: its length is bounded by
the initial length plus `max_retries * len(steps)`, not by `len(steps)`. -/
theorem c3_executed_steps_bound (reg : Registry) (mr : Nat) :
    (∀ step fuel ctx le att, ((stepLoop reg step fuel ctx le att).ctx).executed_steps.length ≤
      ctx.executed_steps.length + fuel) ∧
    (∀ steps ctx, (execute reg steps ctx mr).ctx.executed_steps.length ≤
      ctx.executed_steps.length + mr * steps.length) :=
  ⟨fun step fuel ctx le att => stepLoop_len reg step fuel ctx le att,
   fun steps ctx => execute_len reg steps ctx mr⟩

/-- C4, the code evaluated at the failing input: one step calling tool
`"echo"`, which succeeds returning `"payload"`. `set_output` is called with
`key=tool_name` (`executor.py:81-85`), and its `if key:` branch stores under
*only* that key (`schemas.py:41-44`), so the output is found under `"echo"`
but `"step_1"` is absent — even though the Executor's own final-result
extraction then reads `intermediate_outputs["step_1"]` (`executor.py:123-125`)
and therefore completes the run with `None`. The claim (and the code's own
read site) expects the output under both keys. -/
theorem c4_output_not_stored_under_step_number :
    dictGet (execute regEcho [stepEcho] ctxFix 3).ctx.intermediate_outputs ("echo") =
      some (PyVal.str "payload") ∧
    dictGet (execute regEcho [stepEcho] ctxFix 3).ctx.intermediate_outputs ("step_1") =
      Option.none ∧
    (execute regEcho [stepEcho] ctxFix 3).ctx.status = "completed" ∧
    (execute regEcho [stepEcho] ctxFix 3).ctx.final_result = PyVal.none :=
  ⟨rfl, rfl, rfl, rfl⟩

/-! ### Status/error bookkeeping through the executor and orchestrator -/

/-- The `ValidationError` early return always leaves a failed context with an
error message set. -/
theorem stepLoop_earlyReturn_facts (reg : Registry) (step : PlanStep) :
    ∀ fuel ctx le att c, stepLoop reg step fuel ctx le att = LoopExit.earlyReturn c →
      c.status = "failed" ∧ ∃ e, c.error = some e := by
  intro fuel
  induction fuel with
  | zero =>
    intro ctx le att c h
    simp [stepLoop] at h
  | succ n ih =>
    intro ctx le att c h
    rw [stepLoop] at h
    cases hr : reg (pyLowerStr step.tool_name) with
    | none =>
      rw [hr] at h
      simp only [] at h
      exact ih ctx _ _ c h
    | some tool =>
      rw [hr] at h
      simp only [] at h
      cases hv : tool.schema_error step.input_data with
      | some exc =>
        rw [hv] at h
        simp only [] at h
        cases h
        exact ⟨rfl, _, rfl⟩
      | none =>
        rw [hv] at h
        simp only [] at h
        cases hx : tool.exec step.input_data att with
        | raised m =>
          rw [hx] at h
          simp only [] at h
          exact ih ctx _ _ c h
        | returns r =>
          rw [hx] at h
          simp only [] at h
          by_cases hs : r.success = true
          · rw [if_pos hs] at h
            cases h
          · rw [if_neg hs] at h
            exact ih _ _ _ c h

/-- An early `return` out of the `for` loop always carries a failed context
with an error message set. -/
theorem execFor_error_facts (reg : Registry) (mr : Nat) :
    ∀ steps ctx c, execFor reg mr steps ctx = Except.error c →
      c.status = "failed" ∧ ∃ e, c.error = some e := by
  intro steps
  induction steps with
  | nil =>
    intro ctx c h
    simp [execFor] at h
  | cons step rest ih =>
    intro ctx c h
    rw [execFor] at h
    cases hl : stepLoop reg step mr ctx Option.none 0 with
    | success c1 a =>
      rw [hl] at h
      simp only [] at h
      exact ih c1 c h
    | earlyReturn c1 =>
      rw [hl] at h
      simp only [] at h
      cases h
      exact stepLoop_earlyReturn_facts reg step mr ctx Option.none 0 _ hl
    | exhausted c1 le a =>
      rw [hl] at h
      simp only [] at h
      cases h
      exact ⟨rfl, _, rfl⟩

/-- A context returned normally by `execute` is `completed`, or `failed` with
an error set. -/
theorem execute_normal_facts (reg : Registry) (steps : List PlanStep)
    (ctx : ExecutionContext) (mr : Nat) (c : ExecutionContext)
    (h : execute reg steps ctx mr = ExecResult.normal c) :
    c.status = "completed" ∨ (c.status = "failed" ∧ ∃ e, c.error = some e) := by
  rw [execute] at h
  cases hf : execFor reg mr steps ctx with
  | error c1 =>
    rw [hf] at h
    simp only [] at h
    cases h
    exact Or.inr (execFor_error_facts reg mr steps ctx _ hf)
  | ok c1 =>
    rw [hf] at h
    simp only [] at h
    cases hlast : c1.executed_steps.getLast? with
    | none =>
      rw [hlast] at h
      simp only [executeElse] at h
      cases hpl : steps.getLast? with
      | none =>
        rw [hpl] at h
        simp only [] at h
        exact ExecResult.noConfusion h
      | some lastPlan =>
        rw [hpl] at h
        simp only [] at h
        cases h
        exact Or.inl rfl
    | some ls =>
      rw [hlast] at h
      simp only [] at h
      by_cases hc : (ls.tool_name == "reasoning" && ls.success) = true
      · rw [if_pos hc] at h
        cases h
        exact Or.inl rfl
      · rw [if_neg hc] at h
        simp only [executeElse] at h
        cases hpl : steps.getLast? with
        | none =>
          rw [hpl] at h
          simp only [] at h
          exact ExecResult.noConfusion h
        | some lastPlan =>
          rw [hpl] at h
          simp only [] at h
          cases h
          exact Or.inl rfl

@[simp] theorem applySummary_status (ctx : ExecutionContext) :
    (applySummary ctx).status = ctx.status := rfl

@[simp] theorem applySummary_error (ctx : ExecutionContext) :
    (applySummary ctx).error = ctx.error := rfl

@[simp] theorem applySummary_executed (ctx : ExecutionContext) :
    (applySummary ctx).executed_steps = ctx.executed_steps := rfl

theorem resolve_status (ctx : ExecutionContext) :
    (resolveFinalOutput ctx).status = ctx.status := by
  simp only [resolveFinalOutput]
  split
  · rfl
  · split <;> rfl

theorem resolve_error (ctx : ExecutionContext) :
    (resolveFinalOutput ctx).error = ctx.error := by
  simp only [resolveFinalOutput]
  split
  · rfl
  · split <;> rfl

theorem resolve_final_dict (ctx : ExecutionContext) :
    ∃ xs, (resolveFinalOutput ctx).final_result = PyVal.dict xs := by
  simp only [resolveFinalOutput]
  split
  · exact ⟨_, rfl⟩
  · split
    · exact ⟨_, rfl⟩
    · exact ⟨_, rfl⟩

/-- Facts holding of every run trace: terminal status, dict-shaped final
result, single finalized persisted snapshot, and an error message on the
failed path. Shared by several claim theorems. -/
theorem run_facts (reg : Registry) (mr : Nat) (goal eid il : String)
    (uc : InputData) (planR : Except String (List PlanStep)) :
    ((run reg mr goal eid il uc planR).ctx.status = "completed" ∨
      (run reg mr goal eid il uc planR).ctx.status = "failed") ∧
    (∃ xs, (run reg mr goal eid il uc planR).ctx.final_result = PyVal.dict xs) ∧
    (run reg mr goal eid il uc planR).saved = [(run reg mr goal eid il uc planR).ctx] ∧
    (run reg mr goal eid il uc planR).finalizeCalls = 1 ∧
    ((run reg mr goal eid il uc planR).ctx.status = "failed" →
      ∃ e, (run reg mr goal eid il uc planR).ctx.error = some e) := by
    cases planR with
    | error e =>
      simp only [run, runCatch]
      refine ⟨Or.inr (by rw [resolve_status]; rfl), resolve_final_dict _, trivial, trivial, ?_⟩
      intro _
      rw [resolve_error]
      exact ⟨_, rfl⟩
    | ok steps =>
      simp only [run]
      cases he : execute reg steps (initialContext goal eid uc il) mr with
      | raised msg c =>
        simp only [runCatch]
        refine ⟨Or.inr (by rw [resolve_status]; rfl), resolve_final_dict _, trivial, trivial, ?_⟩
        intro _
        rw [resolve_error]
        exact ⟨_, rfl⟩
      | normal c =>
        simp only []
        rcases execute_normal_facts reg steps (initialContext goal eid uc il) mr c he with
          hcomp | ⟨hfail, e, herr⟩
        · refine ⟨Or.inl (by rw [resolve_status, applySummary_status]; exact hcomp),
            resolve_final_dict _, trivial, trivial, ?_⟩
          intro hfl
          rw [resolve_status, applySummary_status] at hfl
          rw [hcomp] at hfl
          exact absurd hfl (by decide)
        · refine ⟨Or.inr (by rw [resolve_status, applySummary_status]; exact hfail),
            resolve_final_dict _, trivial, trivial, ?_⟩
          intro _
          rw [resolve_error, applySummary_error]
          exact ⟨e, herr⟩
/-- C2: every run — including those whose planning or execution raises —
returns a context whose status is `completed` or `failed`; `final_result` is
always set (a result dict, never `None`); the finalize step runs exactly once
per run and the single persisted snapshot is the already-finalized context;
and every run-fatal condition yields status `failed` with an error message
set, never a propagated raw fault. -/
theorem c2_run_always_finalized (reg : Registry) (mr : Nat) (goal eid il : String)
    (uc : InputData) (planR : Except String (List PlanStep)) :
    ((run reg mr goal eid il uc planR).ctx.status = "completed" ∨
      (run reg mr goal eid il uc planR).ctx.status = "failed") ∧
    (∃ xs, (run reg mr goal eid il uc planR).ctx.final_result = PyVal.dict xs) ∧
    (run reg mr goal eid il uc planR).ctx.final_result ≠ PyVal.none ∧
    (run reg mr goal eid il uc planR).saved = [(run reg mr goal eid il uc planR).ctx] ∧
    (run reg mr goal eid il uc planR).finalizeCalls = 1 ∧
    ((run reg mr goal eid il uc planR).ctx.status = "failed" →
      ∃ e, (run reg mr goal eid il uc planR).ctx.error = some e) := by
  obtain ⟨h1, ⟨xs, hxs⟩, h3, h4, h5⟩ := run_facts reg mr goal eid il uc planR
  refine ⟨h1, ⟨xs, hxs⟩, ?_, h3, h4, h5⟩
  intro hnone
  rw [hnone] at hxs
  exact PyVal.noConfusion hxs

/-- C2 witness: the theorem applied to a run whose planning fails. -/
theorem c2_run_always_finalized_witness :
    ((run regNone 3 "g" "id" "mixed" [] (Except.error ("LLM down"))).ctx.status = "completed" ∨
      (run regNone 3 "g" "id" "mixed" [] (Except.error ("LLM down"))).ctx.status = "failed") ∧
    (run regNone 3 "g" "id" "mixed" [] (Except.error ("LLM down"))).ctx.final_result ≠ PyVal.none ∧
    (∃ e, (run regNone 3 "g" "id" "mixed" [] (Except.error ("LLM down"))).ctx.error = some e) :=
  ⟨(c2_run_always_finalized regNone 3 "g" "id" "mixed" [] (Except.error ("LLM down"))).1,
   (c2_run_always_finalized regNone 3 "g" "id" "mixed" [] (Except.error ("LLM down"))).2.2.1,
   (c2_run_always_finalized regNone 3 "g" "id" "mixed" [] (Except.error ("LLM down"))).2.2.2.2.2 rfl⟩

/-- C5, counterexample: `ExecutionContext.fail` transitions the status away
from `running` but does **not** set `final_result` (`schemas.py:52-56`), so
"final_result is set iff status ≠ running" fails right-to-left on a freshly
failed context. -/
theorem c5_fail_leaves_final_unset_counterexample :
    (ctxFix.fail "err").status = "failed" ∧
    (ctxFix.fail "err").status ≠ "running" ∧
    finalResultSet (ctxFix.fail "err") = false :=
  ⟨rfl, by decide, rfl⟩

/-- C5, amended: only the forward direction of the invariant holds —
`final_result` set implies `status ≠ running` — and it is preserved by
creation, `add_step`, `set_output`, `complete` and `fail` (the latter two
unconditionally, since they leave `running`); the converse fails after
`fail` (and after `complete(None)`). The full biconditional is restored by
the Orchestrator's finalization: after `AgentRunner.run`, `final_result` is
set and the status is terminal. -/
theorem c5_final_result_invariant_amended :
    (∀ goal eid uc il, finalImpliesDone (initialContext goal eid uc il)) ∧
    (∀ ctx : ExecutionContext, ∀ s, finalImpliesDone ctx → finalImpliesDone (ctx.add_step s)) ∧
    (∀ ctx : ExecutionContext, ∀ n out k, finalImpliesDone ctx →
      finalImpliesDone (ctx.set_output n out k)) ∧
    (∀ ctx : ExecutionContext, ∀ v, finalImpliesDone (ctx.complete v)) ∧
    (∀ ctx : ExecutionContext, ∀ e, finalImpliesDone (ctx.fail e)) ∧
    (∀ reg mr goal eid il uc planR,
      finalResultSet (run reg mr goal eid il uc planR).ctx = true ∧
      (run reg mr goal eid il uc planR).ctx.status ≠ "running") := by
  refine ⟨?_, ?_, ?_, ?_, ?_, ?_⟩
  · intro goal eid uc il hset
    exact Bool.noConfusion hset
  · intro ctx s h hset
    exact h hset
  · intro ctx n out k h hset
    have hset2 : finalResultSet ctx = true := by
      unfold finalResultSet at hset ⊢
      rw [set_output_final] at hset
      exact hset
    have hs := h hset2
    rw [show (ctx.set_output n out k).status = ctx.status from set_output_status ctx n out k]
    exact hs
  · intro ctx v hset
    rw [show (ctx.complete v).status = "completed" from rfl]
    decide
  · intro ctx e hset
    rw [show (ctx.fail e).status = "failed" from rfl]
    decide
  · intro reg mr goal eid il uc planR
    obtain ⟨h1, ⟨xs, hxs⟩, -, -, -⟩ := run_facts reg mr goal eid il uc planR
    constructor
    · unfold finalResultSet
      rw [hxs]
    · cases h1 with
      | inl h => rw [h]; decide
      | inr h => rw [h]; decide

/-- C5 witness: the amended invariant applied at concrete contexts and at a
concrete run. -/
theorem c5_final_result_invariant_amended_witness :
    finalImpliesDone (ctxFix.add_step memStepFix) ∧
    finalImpliesDone (ctxFix.complete (PyVal.str "x")) ∧
    finalResultSet (run regNone 3 "g" "id" "mixed" [] (Except.error ("down"))).ctx = true :=
  ⟨c5_final_result_invariant_amended.2.1 ctxFix memStepFix
    (c5_final_result_invariant_amended.1 "g" "id" [] "mixed"),
   c5_final_result_invariant_amended.2.2.2.1 ctxFix (PyVal.str "x"),
   (c5_final_result_invariant_amended.2.2.2.2.2 regNone 3 "g" "id" "mixed" []
     (Except.error ("down"))).1⟩

/-- C10: when `execute` returns a `completed` context in which some
executed-step record is unsuccessful (a step that failed on one attempt and
succeeded within the retry budget), the Orchestrator's finalization takes
the failure branch anyway — `_resolve_final_output` tests
`any(not step.success ...)` over *records*, not steps — so the run's
`final_result` is tagged `source="tool-failure"`, `confidence="low"`, while
the run status remains `completed`. -/
theorem c10_completed_run_tagged_tool_failure (reg : Registry) (mr : Nat)
    (goal eid il : String) (uc : InputData) (steps : List PlanStep)
    (h : completedWithFailedAttempt
      (execute reg steps (initialContext goal eid uc il) mr) = true) :
    (run reg mr goal eid il uc (Except.ok steps)).ctx.status = "completed" ∧
    ∃ content eidv,
      (run reg mr goal eid il uc (Except.ok steps)).ctx.final_result =
        PyVal.dict [("content", PyVal.str content), ("source", PyVal.str ("tool-failure")),
          ("confidence", PyVal.str ("low")), ("execution_id", PyVal.str eidv)] := by
  simp only [run]
  cases he : execute reg steps (initialContext goal eid uc il) mr with
  | raised msg c =>
    rw [he] at h
    simp [completedWithFailedAttempt] at h
  | normal c =>
    rw [he] at h
    simp only [completedWithFailedAttempt, Bool.and_eq_true, beq_iff_eq] at h
    obtain ⟨hstat, hany⟩ := h
    simp only []
    have hcond : (((applySummary c).status == "failed") ||
        (applySummary c).executed_steps.any (fun s => !s.success)) = true := by
      rw [applySummary_status, hstat]
      rw [show (applySummary c).executed_steps = c.executed_steps from rfl]
      simp only [hany, Bool.or_true]
    constructor
    · rw [resolve_status, applySummary_status]
      exact hstat
    · simp only [resolveFinalOutput]
      rw [if_pos hcond]
      exact ⟨_, _, rfl⟩

/-- C10 witness: the flaky tool fails on attempt 0 and succeeds on attempt 1;
the run completes but its final result is tagged tool-failure/low. -/
theorem c10_completed_run_tagged_tool_failure_witness :
    (run regFlaky 3 "g" "id" "mixed" [] (Except.ok [stepOne])).ctx.status = "completed" ∧
    ∃ content eidv,
      (run regFlaky 3 "g" "id" "mixed" [] (Except.ok [stepOne])).ctx.final_result =
        PyVal.dict [("content", PyVal.str content), ("source", PyVal.str ("tool-failure")),
          ("confidence", PyVal.str ("low")), ("execution_id", PyVal.str eidv)] :=
  c10_completed_run_tagged_tool_failure regFlaky 3 "g" "id" "mixed" [] [stepOne] rfl

/-! ### The repair loop budget (C7) -/

/-- When every candidate input validates with errors and every repair
response parses, the loop consumes its whole budget: starting with `fuel`
attempts left and `calls` repair calls made, it ends failed having made
exactly `calls + fuel` repair calls, with the message built from the final
candidate's error list. -/
theorem repairIter_allInvalid (tool : Tool) (tn : String) (repair : RepairOracle)
    (ma : Nat) (hcol : ∀ i, collect_errors tool i ≠ [])
    (hrep : ∀ i e k, ∃ r, repair i e k = some r) :
    ∀ fuel input calls, ∃ finalInput, collect_errors tool finalInput ≠ [] ∧
      repairIter tool tn repair ma fuel input calls =
        RepairResult.failed (repairFailMsg tn (collect_errors tool finalInput))
          (calls + fuel) := by
  intro fuel
  induction fuel with
  | zero =>
    intro input calls
    refine ⟨input, hcol input, ?_⟩
    simp only [repairIter]
    rw [if_neg (by simp [List.isEmpty_iff, hcol input])]
    rw [Nat.add_zero]
  | succ n ih =>
    intro input calls
    obtain ⟨r, hr⟩ := hrep input (collect_errors tool input) (ma - (n + 1))
    obtain ⟨fi, hfi, hrec⟩ := ih r (calls + 1)
    refine ⟨fi, hfi, ?_⟩
    simp only [repairIter]
    rw [if_neg (by simp [List.isEmpty_iff, hcol input])]
    rw [hr]
    simp only []
    rw [hrec]
    congr 1
    omega

/-- C7: (1) with a validator that always reports errors and repair responses
that always parse, `validate_and_repair` calls the repair collaborator
exactly `max_attempts` times — not `max_attempts + 1` — and then fails with
the `ValueError` carrying the tool name and the final error list; (2) an
unparsable repair response aborts the loop at once, after that single extra
repair call, with no further repair calls; (3) any candidate whose error
list is empty is returned as the result immediately. -/
theorem c7_repair_budget_and_abort (reg : Registry) (step : PlanStep) (tool : Tool)
    (repair : RepairOracle) (ma : Nat)
    (hreg : reg (pyLowerStr step.tool_name) = some tool) :
    ((∀ i, collect_errors tool i ≠ []) → (∀ i e k, ∃ r, repair i e k = some r) →
      ∃ finalInput, collect_errors tool finalInput ≠ [] ∧
        validate_and_repair reg step repair ma =
          Except.ok (RepairResult.failed
            (repairFailMsg (pyLowerStr step.tool_name)
              (collect_errors tool finalInput)) ma)) ∧
    (∀ fuel input calls, collect_errors tool input ≠ [] →
      repair input (collect_errors tool input) (ma - (fuel + 1)) = Option.none →
      repairIter tool (pyLowerStr step.tool_name) repair ma (fuel + 1) input calls =
        RepairResult.failed (repairFailMsg (pyLowerStr step.tool_name)
          (collect_errors tool input)) (calls + 1)) ∧
    (∀ input, collect_errors tool input = [] →
      ∀ fuel calls, repairIter tool (pyLowerStr step.tool_name) repair ma fuel input calls =
        RepairResult.ok input calls) := by
  refine ⟨?_, ?_, ?_⟩
  · intro hcol hrep
    obtain ⟨fi, hfi, hit⟩ := repairIter_allInvalid tool (pyLowerStr step.tool_name)
      repair ma hcol hrep ma step.input_data 0
    refine ⟨fi, hfi, ?_⟩
    rw [validate_and_repair, hreg]
    simp only []
    rw [hit]
    congr 2
    omega
  · intro fuel input calls hne hnoparse
    simp only [repairIter]
    rw [if_neg (by simp [List.isEmpty_iff, hne])]
    rw [hnoparse]
  · intro input hempty fuel calls
    cases fuel with
    | zero =>
      simp only [repairIter]
      rw [if_pos (by simp [List.isEmpty_iff, hempty])]
    | succ n =>
      simp only [repairIter]
      rw [if_pos (by simp [List.isEmpty_iff, hempty])]

/-- C7 witness: a tool whose schema rejects everything. With a repair oracle
whose answers parse, the loop fails after exactly 2 repair calls
(`max_attempts = 2`); with an unparsable repair response it aborts after the
single failed parse (1 call); the wrapped call returns the `ValueError`
result carrying the tool name. -/
theorem c7_repair_budget_and_abort_witness :
    (∃ finalInput, collect_errors tBadSchema finalInput ≠ [] ∧
      validate_and_repair regBadSchema stepOne repairEmptyDict 2 =
        Except.ok (RepairResult.failed
          (repairFailMsg (pyLowerStr stepOne.tool_name)
            (collect_errors tBadSchema finalInput)) 2)) ∧
    repairIter tBadSchema (pyLowerStr stepOne.tool_name) repairUnparsable 2 2 [] 0 =
      RepairResult.failed (repairFailMsg (pyLowerStr stepOne.tool_name)
        (collect_errors tBadSchema [])) 1 :=
  ⟨(c7_repair_budget_and_abort regBadSchema stepOne tBadSchema repairEmptyDict 2 rfl).1
      (fun i => by simp [collect_errors, tBadSchema])
      (fun i e k => ⟨[], rfl⟩),
   (c7_repair_budget_and_abort regBadSchema stepOne tBadSchema repairUnparsable 2 rfl).2.1
      1 [] 0 (by decide) rfl⟩

/-! ### JSON recovery order (C8) -/

/-- A successful suffix scan returns the parse of the *longest* end index
that parses: every longer closing suffix fails. -/
theorem trySuffixes_some {α : Type} (loads : String → Option α) (text : String)
    (start : Nat) : ∀ n v, trySuffixes loads text start n = some v →
      ∃ e, start < e ∧ e ≤ start + n ∧ loads (strSlice text start e) = some v ∧
        ∀ e2, e < e2 → e2 ≤ start + n → loads (strSlice text start e2) = Option.none := by
  intro n
  induction n with
  | zero =>
    intro v h
    simp [trySuffixes] at h
  | succ m ih =>
    intro v h
    simp only [trySuffixes] at h
    cases hl : loads (strSlice text start (start + m + 1)) with
    | some w =>
      rw [hl] at h
      simp only [] at h
      cases h
      refine ⟨start + m + 1, by omega, by omega, hl, ?_⟩
      intro e2 h1 h2
      omega
    | none =>
      rw [hl] at h
      simp only [] at h
      obtain ⟨e, he1, he2, he3, he4⟩ := ih v h
      refine ⟨e, he1, by omega, he3, ?_⟩
      intro e2 h1 h2
      by_cases heq : e2 = start + m + 1
      · rw [heq]
        exact hl
      · exact he4 e2 h1 (by omega)

/-- A failed suffix scan means no closing suffix parses. -/
theorem trySuffixes_none {α : Type} (loads : String → Option α) (text : String)
    (start : Nat) : ∀ n, trySuffixes loads text start n = Option.none →
      ∀ e, start < e → e ≤ start + n → loads (strSlice text start e) = Option.none := by
  intro n
  induction n with
  | zero =>
    intro h e h1 h2
    omega
  | succ m ih =>
    intro h e h1 h2
    simp only [trySuffixes] at h
    cases hl : loads (strSlice text start (start + m + 1)) with
    | some w =>
      rw [hl] at h
      exact Option.noConfusion h
    | none =>
      rw [hl] at h
      simp only [] at h
      by_cases heq : e = start + m + 1
      · rw [heq]
        exact hl
      · exact ih h e h1 (by omega)

/-- C8, counterexample: on `"[1] \x7b\x7d"` the `'['` occurs at index 0, before
the `'\x7b'` at index 4; the claimed algorithm (start from the textually first
`'\x7b'`-or-`'['`) would recover `[1]`, but the code tries `'\x7b'` first
regardless of position and returns `\x7b\x7d`, so the two differ. -/
theorem c8_recovery_start_counterexample :
    strFindIdx ("[1] \x7b\x7d") '[' = some 0 ∧
    strFindIdx ("[1] \x7b\x7d") lbrace = some 4 ∧
    jloads ("[1] \x7b\x7d") = Option.none ∧
    parse_json jloads ("[1] \x7b\x7d") = some (J.jobj []) ∧
    parse_json_claimed jloads ("[1] \x7b\x7d") = some (J.jarr [J.jnum 1]) ∧
    parse_json jloads ("[1] \x7b\x7d") ≠ parse_json_claimed jloads ("[1] \x7b\x7d") :=
  ⟨rfl, rfl, rfl, rfl, rfl, fun h => J.noConfusion (Option.some.inj h)⟩

/-- C8, amended: `parse_json` first tries the whole text; on failure it scans
start characters in the fixed order `'\x7b'` then `'['` — for the first
occurrence of `'\x7b'` it tries every closing suffix from the end of the
string backward (returning the longest suffix that parses), and only if that
yields nothing does it do the same from the first `'['`; it fails when
neither yields a parse. So when a `'['` occurs earlier than a `'\x7b'`,
recovery still prefers the `'\x7b'` position. -/
theorem c8_recovery_order_amended :
    (∀ (α : Type) (loads : String → Option α) (text : String),
      parse_json loads text = parse_json_amended loads text) ∧
    (∀ (α : Type) (loads : String → Option α) (text : String) (v : α),
      loads text = some v → parse_json loads text = some v) ∧
    (∀ (α : Type) (loads : String → Option α) (text : String) (start n : Nat) (v : α),
      trySuffixes loads text start n = some v →
        ∃ e, start < e ∧ e ≤ start + n ∧ loads (strSlice text start e) = some v ∧
          ∀ e2, e < e2 → e2 ≤ start + n → loads (strSlice text start e2) = Option.none) ∧
    (∀ (α : Type) (loads : String → Option α) (text : String) (start n : Nat),
      trySuffixes loads text start n = Option.none →
        ∀ e, start < e → e ≤ start + n → loads (strSlice text start e) = Option.none) := by
  refine ⟨?_, ?_, ?_, ?_⟩
  · intro α loads text
    simp only [parse_json, parse_json_amended, scanStartChars]
    cases loads text with
    | some v => rfl
    | none =>
      simp only []
      cases tryFromFirst loads text lbrace with
      | some v => rfl
      | none =>
        simp only [scanStartChars]
        cases tryFromFirst loads text '[' <;> rfl
  · intro α loads text v h
    rw [parse_json, h]
  · intro α loads text start n v h
    exact trySuffixes_some loads text start n v h
  · intro α loads text start n h
    exact trySuffixes_none loads text start n h

/-- C8 witness: the amended description evaluated concretely — a direct parse
is returned as-is, and the code/amended-description agreement instantiated on
the counterexample text. -/
theorem c8_recovery_order_amended_witness :
    parse_json jloads ("[1] ") = some (J.jarr [J.jnum 1]) ∧
    parse_json jloads ("[1] \x7b\x7d") = parse_json_amended jloads ("[1] \x7b\x7d") :=
  ⟨c8_recovery_order_amended.2.1 J jloads ("[1] ") (J.jarr [J.jnum 1]) rfl,
   c8_recovery_order_amended.1 J jloads ("[1] \x7b\x7d")⟩

/-! ### Memory-key inference (C9) -/

theorem pyLowerChar_of_alnum (c : Char) (h : pyIsAlnum c = true) :
    pyIsAlnum (pyLowerChar c) = true ∧ pyIsUpper (pyLowerChar c) = false := by
  simp only [pyIsAlnum, decide_eq_true_eq] at h
  unfold pyLowerChar
  by_cases hc : 65 ≤ c.toNat ∧ c.toNat ≤ 90
  · rw [if_pos hc]
    have ht : (Char.ofNat (c.toNat + 32)).toNat = c.toNat + 32 :=
      toNat_ofNat_valid _ (by omega)
    constructor
    · simp only [pyIsAlnum, decide_eq_true_eq, ht]
      omega
    · simp only [pyIsUpper, ht, decide_eq_false_iff_not]
      omega
  · rw [if_neg hc]
    constructor
    · simp only [pyIsAlnum, decide_eq_true_eq]
      omega
    · simp only [pyIsUpper, decide_eq_false_iff_not]
      omega

theorem normChar_cases (o : Char) :
    normChar o = '_' ∨ (pyIsAlnum (normChar o) = true ∧ pyIsUpper (normChar o) = false) := by
  unfold normChar
  by_cases h : pyIsAlnum o = true
  · rw [if_pos h]
    exact Or.inr (pyLowerChar_of_alnum o h)
  · rw [if_neg h]
    exact Or.inl rfl

theorem splitUnderscore_ne_nil : ∀ l : List Char, splitUnderscore l ≠ [] := by
  intro l
  induction l with
  | nil => simp [splitUnderscore]
  | cons c cs ih =>
    simp only [splitUnderscore]
    split
    · simp
    · split <;> simp

theorem splitUnderscore_mem : ∀ (l w : List Char), w ∈ splitUnderscore l →
    ∀ c ∈ w, c ∈ l ∧ ¬(c = '_') := by
  intro l
  induction l with
  | nil =>
    intro w hw c hc
    simp [splitUnderscore] at hw
    subst hw
    simp at hc
  | cons d ds ih =>
    intro w hw c hc
    simp only [splitUnderscore] at hw
    by_cases hd : d = '_'
    · rw [if_pos hd] at hw
      rcases List.mem_cons.mp hw with h1 | h2
      · subst h1
        simp at hc
      · obtain ⟨hcl, hcne⟩ := ih w h2 c hc
        exact ⟨List.mem_cons_of_mem d hcl, hcne⟩
    · rw [if_neg hd] at hw
      cases hr : splitUnderscore ds with
      | nil => exact absurd hr (splitUnderscore_ne_nil ds)
      | cons w0 ws =>
        rw [hr] at hw
        simp only [] at hw
        rcases List.mem_cons.mp hw with h1 | h2
        · subst h1
          rcases List.mem_cons.mp hc with h3 | h4
          · subst h3
            exact ⟨List.mem_cons_self _ _, hd⟩
          · have h5 := ih w0 (by rw [hr]; exact List.mem_cons_self w0 ws) c h4
            exact ⟨List.mem_cons_of_mem d h5.1, h5.2⟩
        · have h5 := ih w (by rw [hr]; exact List.mem_cons_of_mem w0 h2) c hc
          exact ⟨List.mem_cons_of_mem d h5.1, h5.2⟩

theorem joinUnderscore_mem : ∀ (ws : List (List Char)) (c : Char),
    c ∈ joinUnderscore ws → c = '_' ∨ ∃ w, w ∈ ws ∧ c ∈ w := by
  intro ws
  induction ws with
  | nil =>
    intro c hc
    simp [joinUnderscore] at hc
  | cons w ws ih =>
    intro c hc
    cases ws with
    | nil =>
      right
      exact ⟨w, by simp, by simpa [joinUnderscore] using hc⟩
    | cons v vs =>
      rw [show joinUnderscore (w :: v :: vs) = w ++ '_' :: joinUnderscore (v :: vs) from rfl] at hc
      rcases List.mem_append.mp hc with h1 | h2
      · exact Or.inr ⟨w, by simp, h1⟩
      · rcases List.mem_cons.mp h2 with h3 | h4
        · exact Or.inl h3
        · rcases ih c h4 with h5 | ⟨u, hu1, hu2⟩
          · exact Or.inl h5
          · exact Or.inr ⟨u, List.mem_cons_of_mem w hu1, hu2⟩

theorem noDouble_of_no_underscore : ∀ w : List Char,
    (∀ c ∈ w, ¬(c = '_')) → noDoubleUnderscore w = true := by
  intro w
  induction w with
  | nil => intro _; rfl
  | cons a w ih =>
    intro h
    cases w with
    | nil => rfl
    | cons b w2 =>
      have ha : ¬(a = '_') := h a (List.mem_cons_self _ _)
      have hrec := ih (fun c hc => h c (List.mem_cons_of_mem a hc))
      simp only [noDoubleUnderscore, Bool.and_eq_true, Bool.not_eq_true']
      exact ⟨by simp [ha], hrec⟩

theorem noDouble_append : ∀ (w rest : List Char), (∀ c ∈ w, ¬(c = '_')) →
    noDoubleUnderscore rest = true → noDoubleUnderscore (w ++ rest) = true := by
  intro w
  induction w with
  | nil =>
    intro rest _ hr
    simpa using hr
  | cons a w ih =>
    intro rest h hr
    have ha : ¬(a = '_') := h a (List.mem_cons_self _ _)
    have hrec := ih rest (fun c hc => h c (List.mem_cons_of_mem a hc)) hr
    rw [List.cons_append]
    cases hw : w ++ rest with
    | nil => rfl
    | cons b t =>
      rw [hw] at hrec
      simp only [noDoubleUnderscore, Bool.and_eq_true, Bool.not_eq_true']
      exact ⟨by simp [ha], hrec⟩

theorem noDouble_join : ∀ ws : List (List Char),
    (∀ w ∈ ws, w ≠ [] ∧ ∀ c ∈ w, ¬(c = '_')) →
    noDoubleUnderscore (joinUnderscore ws) = true := by
  intro ws
  induction ws with
  | nil => intro _; rfl
  | cons w ws ih =>
    intro h
    cases ws with
    | nil => exact noDouble_of_no_underscore w (h w (by simp)).2
    | cons v vs =>
      obtain ⟨hvne, hvfree⟩ := h v (by simp)
      rw [show joinUnderscore (w :: v :: vs) = w ++ '_' :: joinUnderscore (v :: vs) from rfl]
      apply noDouble_append w _ (h w (by simp)).2
      have hrec := ih (fun u hu => h u (List.mem_cons_of_mem w hu))
      cases v with
      | nil => exact absurd rfl hvne
      | cons b v2 =>
        obtain ⟨t, ht⟩ : ∃ t, joinUnderscore ((b :: v2) :: vs) = b :: t := by
          cases vs with
          | nil => exact ⟨v2, rfl⟩
          | cons u us => exact ⟨v2 ++ '_' :: joinUnderscore (u :: us), rfl⟩
        rw [ht]
        rw [ht] at hrec
        have hb : ¬(b = '_') := hvfree b (by simp)
        simp only [noDoubleUnderscore, Bool.and_eq_true, Bool.not_eq_true']
        exact ⟨by simp [hb], hrec⟩

theorem noDouble_take : ∀ l : List Char, noDoubleUnderscore l = true →
    ∀ n, noDoubleUnderscore (l.take n) = true := by
  intro l
  induction l with
  | nil =>
    intro h n
    simp [noDoubleUnderscore]
  | cons a l ih =>
    intro h n
    cases n with
    | zero => rfl
    | succ m =>
      cases l with
      | nil =>
        cases m <;> rfl
      | cons b l2 =>
        simp only [noDoubleUnderscore, Bool.and_eq_true] at h
        obtain ⟨h1, h2⟩ := h
        cases m with
        | zero => rfl
        | succ k =>
          have hrec := ih h2 (k + 1)
          show noDoubleUnderscore (a :: b :: List.take k l2) = true
          simp only [noDoubleUnderscore, Bool.and_eq_true]
          exact ⟨h1, by simpa using hrec⟩

theorem splitUnderscore_all_underscore : ∀ l : List Char, (∀ c ∈ l, c = '_') →
    (splitUnderscore l).filter (fun w => w ≠ []) = [] := by
  intro l
  induction l with
  | nil => intro _; rfl
  | cons a l ih =>
    intro h
    have ha := h a (by simp)
    simp only [splitUnderscore]
    rw [if_pos ha]
    have hrec := ih (fun c hc => h c (by simp [hc]))
    simpa using hrec

/-- C9: `infer_memory_key` maps `"Store My Result!!"` and `"store my result"`
to the same non-empty string `"store_my_result"`; it is a pure function
(deterministic by construction), and for every goal the key is at most 40
characters, non-empty, consists only of underscores and non-uppercase
alphanumerics (lower-cased), never contains two adjacent underscores
(non-alphanumeric runs collapse to at most one `"_"`, with boundary runs
dropped), and degenerates to `"result"` when the goal has no alphanumeric
characters at all. -/
theorem c9_infer_memory_key_props :
    infer_memory_key ("Store My Result!!") = "store_my_result" ∧
    infer_memory_key ("store my result") = "store_my_result" ∧
    ("store_my_result" : String) ≠ "" ∧
    (∀ g : String, (infer_memory_key g).length ≤ 40) ∧
    (∀ g : String, infer_memory_key g ≠ "") ∧
    (∀ g : String, ∀ c ∈ (infer_memory_key g).data,
      c = '_' ∨ (pyIsAlnum c = true ∧ pyIsUpper c = false)) ∧
    (∀ g : String, noDoubleUnderscore (infer_memory_key g).data = true) ∧
    (∀ g : String, (∀ c ∈ g.data, pyIsAlnum c = false) → infer_memory_key g = "result") := by
  refine ⟨rfl, rfl, by decide, ?_, ?_, ?_, ?_, ?_⟩
  · intro g
    simp only [infer_memory_key]
    split
    · decide
    · exact List.length_take_le _ _
  · intro g
    simp only [infer_memory_key]
    split
    · decide
    · next ht =>
      intro he
      exact ht (congrArg String.data he)
  · intro g
    simp only [infer_memory_key]
    split
    · have hall : ∀ x ∈ ("result" : String).data,
          x = '_' ∨ (pyIsAlnum x = true ∧ pyIsUpper x = false) := by decide
      intro c hc
      exact hall c hc
    · intro c hc
      have hc2 := List.take_subset _ _ hc
      rcases joinUnderscore_mem _ c hc2 with h1 | ⟨w, hw1, hw2⟩
      · exact Or.inl h1
      · have hw3 := List.mem_filter.mp hw1
        obtain ⟨hcl, hcnu⟩ := splitUnderscore_mem _ w hw3.1 c hw2
        obtain ⟨o, _, ho2⟩ := List.mem_map.mp hcl
        rcases normChar_cases o with h3 | h3
        · exact absurd (ho2 ▸ h3) hcnu
        · right
          rw [← ho2]
          exact h3
  · intro g
    simp only [infer_memory_key]
    split
    · decide
    · apply noDouble_take _ _ 40
      apply noDouble_join
      intro w hw
      have hw2 := List.mem_filter.mp hw
      refine ⟨by simpa using hw2.2, ?_⟩
      intro c hc
      exact (splitUnderscore_mem _ w hw2.1 c hc).2
  · intro g hall
    simp only [infer_memory_key]
    have hcl : ∀ c ∈ g.data.map normChar, c = '_' := by
      intro c hc
      obtain ⟨o, ho1, ho2⟩ := List.mem_map.mp hc
      rw [← ho2]
      unfold normChar
      rw [if_neg (by simp [hall o ho1])]
    rw [splitUnderscore_all_underscore _ hcl]
    rfl

/-- C9 witness: the properties applied to concrete goals, including the
empty-normalization default. -/
theorem c9_infer_memory_key_props_witness :
    infer_memory_key ("!!!") = "result" ∧
    (infer_memory_key ("Store My Result!!")).length ≤ 40 ∧
    noDoubleUnderscore (infer_memory_key ("a__b  c")).data = true :=
  ⟨c9_infer_memory_key_props.2.2.2.2.2.2.2 "!!!" (by decide),
   c9_infer_memory_key_props.2.2.2.1 "Store My Result!!",
   c9_infer_memory_key_props.2.2.2.2.2.2.1 "a__b  c"⟩

end AgenticAI
